import Mathlib

/-!
Verification development for the metadata-driven binding generator
(`gen/src/write/writer.rs`): interface composition, method projection with
collision resolution, ABI/consumer signature derivation, namespace path
resolution, and the excluded-type abort paths.

The metadata reader (`crate::read`), signature model (`crate::signatures`)
and small helpers (`crate::helpers`) are external to the provided source;
their records are embedded as plain data below, faithful to how
`writer.rs` consumes them.  Functions of `writer.rs` are translated
directly; sites where the Rust code panics on malformed metadata are
modelled with `Except` (when a claim is about the abort) or with poisoned
sentinel tokens (when no claim depends on them).
-/

/-- Primitive element types of the signature model (`ElementType`). -/
inductive EType where
  | bool | char | i8 | u8 | i16 | u16 | i32 | u32 | i64 | u64 | f32 | f64
  | string | object
deriving DecidableEq, Repr

/-- Category of a type definition (`TypeCategory`). -/
inductive TypeCategory where
  | Interface | Class | Struct | Enum | Delegate
deriving DecidableEq, Repr

/-- Accessor category of a raw metadata method (`MethodCategory`). -/
inductive MethodCategory where
  | Normal | Get | Set | Add | Remove
deriving DecidableEq, Repr

/-- Role tag of a composed interface (`InterfaceCategory`). -/
inductive InterfaceCategory where
  | Abi | DefaultInstance | Instance | Static | Activatable | DefaultActivatable
deriving DecidableEq, Repr

/-- Resolved view of a `TypeDef`/`TypeRef` as consumed by signature
rendering: namespace, name and category (`value.namespace(r)`,
`value.name(r)`, `value.category(r)`). -/
structure TypeRefInfo where
  namespaceName : String
  name : String
  category : TypeCategory
deriving DecidableEq, Repr

/-- A `TypeDefOrRef` occurring inside a signature.  A `TypeRef` resolves
(`value.resolve(r)`) to the same underlying record in this model. -/
inductive SigTypeDefOrRef where
  | typeDef (info : TypeRefInfo)
  | typeRef (info : TypeRefInfo)
deriving DecidableEq, Repr

/-- The namespace of a signature-level `TypeDefOrRef`. -/
def SigTypeDefOrRef.namespaceName : SigTypeDefOrRef → String
  | .typeDef info => info.namespaceName
  | .typeRef info => info.namespaceName

/-- The name of a signature-level `TypeDefOrRef`. -/
def SigTypeDefOrRef.name : SigTypeDefOrRef → String
  | .typeDef info => info.name
  | .typeRef info => info.name

/-- A resolved type signature (`TypeSig` / `TypeSigType`): a primitive
element type, a reference to a defined type, a generic instantiation
(definition plus argument signatures), or a positional index into the
active generic argument frame. -/
inductive TypeSig where
  | elementType (e : EType)
  | typeDefOrRef (t : SigTypeDefOrRef)
  | genericSig (definition : TypeRefInfo) (args : List TypeSig)
  | genericTypeIndex (i : Nat)
deriving Repr

/-- A method parameter (`ParamSig`): name, type signature and the
direction/array flags exposed by the reader. -/
structure ParamSig where
  name : String
  ty : TypeSig
  input : Bool
  byRef : Bool
  array : Bool
deriving Repr

/-- A method signature (`MethodSig`): parameter list and optional return. -/
structure MethodSig where
  params : List ParamSig
  returnType : Option ParamSig
deriving Repr

/-- `MethodSig::invalid()` (used for the synthesized `new` method of a
default-activatable class); its source is outside `writer.rs`, so it is
modelled as the empty signature, which `writer.rs` never inspects for the
`DefaultActivatable` case. -/
def MethodSig.invalid : MethodSig := { params := [], returnType := none }

/-- A positional custom-attribute argument (`ArgumentSig`), restricted to
the kinds `writer.rs` consumes. -/
inductive ArgumentSig where
  | u8 (v : Nat)
  | u16 (v : Nat)
  | u32 (v : Nat)
  | string (v : String)
  | typeDef (id : Nat)
deriving DecidableEq, Repr

/-- A custom attribute (`CustomAttribute`): two-part name plus positional
arguments. -/
structure AttributeRec where
  namespaceName : String
  name : String
  args : List ArgumentSig
deriving DecidableEq, Repr

/-- A raw metadata method (`MethodDef`): name, attributes, accessor
category and signature. -/
structure MethodDefRec where
  name : String
  attributes : List AttributeRec
  category : MethodCategory
  sig : MethodSig
deriving Repr

/-- A struct field (`Field`): name and type signature. -/
structure FieldRec where
  name : String
  signature : TypeSig
deriving Repr

/-- An interface-implementation edge (`InterfaceImpl`): the attribute
markers `writer.rs` queries plus the target `TypeDefOrRef`, which is a
`TypeDef`/`TypeRef` (by identity) or a `TypeSpec` (generic instantiation). -/
inductive EdgeTarget where
  | typeDef (id : Nat)
  | typeRef (id : Nat)
  | typeSpec (id : Nat) (args : List TypeSig)
deriving Repr

structure InterfaceImplRec where
  hasDefaultAttribute : Bool
  hasOverridableAttribute : Bool
  target : EdgeTarget
deriving Repr

/-- A type definition record (`TypeDef` row): everything `writer.rs`
reads from the metadata reader. -/
structure TypeDefData where
  namespaceName : String
  name : String
  methods : List MethodDefRec
  fields : List FieldRec
  interfaces : List InterfaceImplRec
  bases : List Nat
  attributes : List AttributeRec
  hasExclusiveTo : Bool
  generics : List String
deriving Repr

/-- The metadata reader (`Reader`): type definitions addressed by row
identity (their index in this list). -/
structure Reader where
  types : List TypeDefData
deriving Repr

/-- Reader lookup helpers (row access on the `TypeDef` table). -/
def Reader.data (r : Reader) (id : Nat) : TypeDefData :=
  (r.types.get? id).getD
    { namespaceName := "", name := "", methods := [], fields := [],
      interfaces := [], bases := [], attributes := [], hasExclusiveTo := false,
      generics := [] }

def Reader.defNamespace (r : Reader) (id : Nat) : String := (r.data id).namespaceName

def Reader.defName (r : Reader) (id : Nat) : String := (r.data id).name

def Reader.defMethods (r : Reader) (id : Option Nat) : List MethodDefRec :=
  match id with
  | some id => (r.data id).methods
  | none => []

def Reader.interfacesOf (r : Reader) (id : Nat) : List InterfaceImplRec :=
  (r.data id).interfaces

def Reader.defHasExclusive (r : Reader) (id : Nat) : Bool :=
  (r.data id).hasExclusiveTo

/-- A composed-interface descriptor (`Interface`, constructed only by
`writer.rs`).  `definition` is the `TypeDef` identity; `none` stands for
`TypeDef::invalid()` used by the sentinel default-activation entry. -/
structure Interface where
  definition : Option Nat
  generics : List (List String)
  overridable : Bool
  exclusive : Bool
  limited : Bool
  category : InterfaceCategory
  identifier : String
deriving Repr

/-- A projected method (`Method`, constructed only by `writer.rs`). -/
structure Method where
  name : String
  sig : MethodSig
  category : MethodCategory
  interface : Interface
  limited : Bool
deriving Repr

/-- The writer context: the namespace being generated and the `sub_mod`
flag (`Writer::namespace`, `Writer::sub_mod`).  The generic-argument
stack (`Writer::generics`) is threaded as an explicit parameter. -/
structure WCtx where
  namespaceName : String
  subMod : Bool
deriving Repr

/-!  Helpers from `crate::helpers`, whose source is not under `src/`. -/

/-- Modelled from the spec: `append_snake` (crate::helpers, source absent
from src/) — snake-folds `source` onto `result`: an upper-case character
is lower-cased, preceded by an underscore when the accumulator is
non-empty and does not already end in one ("case-folded to the path
convention in use", spec 4.5; "snake-folded", spec 4.3). -/
def appendSnake (result source : String) : String :=
  source.toList.foldl
    (fun acc c =>
      if c.isUpper then
        (if acc.toList.isEmpty || acc.toList.getLast? = some '_' then acc
         else acc.push '_').push c.toLower
      else acc.push c)
    result

/-- Modelled from the spec: `to_snake` (crate::helpers, source absent
from src/) — snake-folds a name from scratch. -/
def toSnake (s : String) : String := appendSnake "" s

/-- Modelled from the spec: `write_ident` (source absent from src/) turns
a metadata name into an emitted identifier; modelled as the identity on
the name. -/
def writeIdent (s : String) : String := s

/-!  Namespace path resolver (`Writer::write_namespace_name`). -/

/-- `namespace.split('.')`: dot-splitting of a namespace string into its
segments (a kernel-computable rendering of the Rust split iterator). -/
def splitSegsGo : List Char → String → List String
  | [], acc => [acc]
  | c :: rest, acc =>
    if c = '.' then acc :: splitSegsGo rest "" else splitSegsGo rest (acc.push c)

def splitSegs (s : String) : List String := splitSegsGo s.toList ""

/-- The `while source.peek() == destination.peek()` loop of
`write_namespace_name`: consumes the shared leading segments and returns
both remainders. -/
def skipCommon : List String → List String → List String × List String
  | [], d => ([], d)
  | a :: s, b :: d => if a = b then skipCommon s d else (a :: s, b :: d)
  | a :: s, [] => (a :: s, [])

/-- `Writer::write_namespace_name`: relative module path from the
namespace being generated to `other`, as a list of rendered path tokens. -/
def writeNamespaceName (ctx : WCtx) (other : String) : List String :=
  let src := splitSegs ctx.namespaceName
  let dst := splitSegs other
  let rests := skipCommon src dst
  (if ctx.subMod then ["super::"] else [])
    ++ List.replicate rests.1.length "super::"
    ++ rests.2.map (fun d => writeIdent (toSnake d) ++ "::")

/-- Modelled from the spec (4.5): the length of the longest shared leading
segment sequence. -/
def commonPrefixLen : List String → List String → Nat
  | a :: s, b :: d => if a = b then commonPrefixLen s d + 1 else 0
  | _, _ => 0

/-- Modelled from the spec (4.5): one up-level token per source segment
beyond the shared prefix, then one case-folded path segment per remaining
destination segment. -/
def namespacePathSpec (source dest : String) : List String :=
  let s := splitSegs source
  let d := splitSegs dest
  let k := commonPrefixLen s d
  List.replicate (s.length - k) "super::"
    ++ (d.drop k).map (fun seg => toSnake seg ++ "::")

/-!  Exclusion checks (`Writer::limited_*`). -/

mutual

/-- `Writer::limited_type` (with `limited_type_generic`): whether a type
signature mentions a type whose namespace is outside the inclusion set
(`System` is never limited; a generic instantiation is limited when its
namespace of its definition is outside the set or any argument is limited). -/
def limitedType (limits : List String) : TypeSig → Bool
  | .typeDefOrRef t =>
    if t.namespaceName = "System" then false
    else !(limits.contains t.namespaceName)
  | .genericSig d args =>
    if !(limits.contains d.namespaceName) then true
    else limitedTypeArgs limits args
  | .elementType _ => false
  | .genericTypeIndex _ => false

/-- The `args().iter().any(...)` part of `Writer::limited_type_generic`. -/
def limitedTypeArgs (limits : List String) : List TypeSig → Bool
  | [] => false
  | a :: rest => limitedType limits a || limitedTypeArgs limits rest

end

/-- `Writer::limited_type_def`. -/
def limitedTypeDef (limits : List String) (r : Reader) (id : Nat) : Bool :=
  if r.defNamespace id = "System" then false
  else !(limits.contains (r.defNamespace id))

/-- `Writer::limited_method`: the return type or any parameter is limited. -/
def limitedMethod (limits : List String) (sig : MethodSig) : Bool :=
  (match sig.returnType with
   | some v => limitedType limits v.ty
   | none => false)
  || sig.params.any (fun p => limitedType limits p.ty)

/-!  Method naming (`Writer::raw_method_name`, `Writer::method_name`). -/

/-- `TypeDef::find_attribute`-style lookup on an attribute list. -/
def findAttribute (attrs : List AttributeRec) (ns name : String) : Option AttributeRec :=
  attrs.find? (fun a => a.namespaceName = ns && a.name = name)

/-- `Writer::raw_method_name`: an `OverloadAttribute` string argument
replaces the metadata name. -/
def rawMethodName (m : MethodDefRec) : String :=
  match findAttribute m.attributes "Windows.Foundation.Metadata" "OverloadAttribute" with
  | some attr =>
    match attr.args.findSome? (fun a => match a with | .string v => some v | _ => none) with
    | some v => v
    | none => m.name
  | none => m.name

/-- `Writer::method_name`: accessor-prefix stripping and snake folding.
`Get`/`Add` drop a 4-character prefix; `Set` drops 4 and prepends `set`;
`Remove` drops 7 and prepends `remove`; `Normal` uses the name verbatim. -/
def methodName (m : MethodDefRec) : String :=
  let name := rawMethodName m
  match m.category with
  | .Get => appendSnake "" (name.drop 4)
  | .Add => appendSnake "" (name.drop 4)
  | .Set => appendSnake "set" (name.drop 4)
  | .Remove => appendSnake "remove" (name.drop 7)
  | .Normal => appendSnake "" name

/-!  Method projection and collision resolution (`Writer::methods`). -/

/-- `methods[pos].name += "2"` — rename the entry at `pos`. -/
def renameAt (acc : List Method) (pos : Nat) : List Method :=
  match acc.get? pos with
  | some m => acc.set pos { m with name := m.name ++ "2" }
  | none => acc

/-- One iteration of the inner loop of `Writer::methods`: project one raw
method of `i` against the accumulated list.  A name collision on the
primary (`Abi`) interface renames (the new method when it is `Normal`,
the previously projected one otherwise); a collision on any other
interface marks the new method `limited`. -/
def methodsStep (limits : List String) (i : Interface) (acc : List Method)
    (m : MethodDefRec) : List Method :=
  let name := methodName m
  let limited := limitedMethod limits m.sig
  match acc.findIdx? (fun mm => mm.name = name) with
  | some pos =>
    if i.category = .Abi then
      if m.category = .Normal then
        acc ++ [{ name := name ++ "2", sig := m.sig, category := m.category,
                  interface := i, limited := limited }]
      else
        renameAt acc pos
          ++ [{ name := name, sig := m.sig, category := m.category,
                interface := i, limited := limited }]
    else
      acc ++ [{ name := name, sig := m.sig, category := m.category,
                interface := i, limited := true }]
  | none =>
    acc ++ [{ name := name, sig := m.sig, category := m.category,
              interface := i, limited := limited }]

/-- The per-interface part of `Writer::methods`: limited interfaces are
skipped; a `DefaultActivatable` entry contributes the synthesized `new`
method; otherwise every raw method of the definition of the interface is
projected in declaration order. -/
def methodsInterface (r : Reader) (limits : List String) (acc : List Method)
    (i : Interface) : List Method :=
  if i.limited then acc
  else if i.category = .DefaultActivatable then
    acc ++ [{ name := "new", sig := MethodSig.invalid, category := .Normal,
              interface := i, limited := false }]
  else
    (r.defMethods i.definition).foldl (fun acc m => methodsStep limits i acc m) acc

/-- `Writer::methods`: the projected-method list for a composed interface
list, in interface order. -/
def methodsModel (r : Reader) (limits : List String)
    (interfaces : List Interface) : List Method :=
  interfaces.foldl (fun acc i => methodsInterface r limits acc i) []

/-- The filter of `Writer::write_methods`: the flattened public surface
keeps exactly the projected methods that are neither limited nor of
accessor category `Remove`. -/
def writeMethodsKept (ms : List Method) : List Method :=
  ms.filter (fun m => !m.limited && !(m.category = .Remove))

/-- Modelled from the spec (4.3): the collision policy as the spec words
it — a collision-excluded slot "is simply absent" and "does not block
later same-named methods", while namespace-excluded methods still count
as already projected.  Identical to `methodsStep` except that a method
excluded by the non-primary collision rule is dropped from the projected
list instead of being appended with `limited = true`. -/
def methodsStepSpecC1 (limits : List String) (i : Interface) (acc : List Method)
    (m : MethodDefRec) : List Method :=
  let name := methodName m
  let limited := limitedMethod limits m.sig
  match acc.findIdx? (fun mm => mm.name = name) with
  | some pos =>
    if i.category = .Abi then
      if m.category = .Normal then
        acc ++ [{ name := name ++ "2", sig := m.sig, category := m.category,
                  interface := i, limited := limited }]
      else
        renameAt acc pos
          ++ [{ name := name, sig := m.sig, category := m.category,
                interface := i, limited := limited }]
    else
      acc
  | none =>
    acc ++ [{ name := name, sig := m.sig, category := m.category,
              interface := i, limited := limited }]

/-- Modelled from the spec (4.3): `Writer::methods` under the collision bookkeeping of the spec (`methodsStepSpecC1`). -/
def methodsModelSpecC1 (r : Reader) (limits : List String)
    (interfaces : List Interface) : List Method :=
  interfaces.foldl
    (fun acc i =>
      if i.limited then acc
      else if i.category = .DefaultActivatable then
        acc ++ [{ name := "new", sig := MethodSig.invalid, category := .Normal,
                  interface := i, limited := false }]
      else
        (r.defMethods i.definition).foldl
          (fun acc m => methodsStepSpecC1 limits i acc m) acc)
    []

/-!  Type rendering (`Writer::write_type` and friends).  Token streams are
rendered as strings.  Sites where the Rust code panics on inconsistent
state (`expect`/`unwrap`/out-of-range indexing) render a sentinel token
tagged `!panic`; no claim below depends on those sites. -/

/-- `Writer::write_type_element`. -/
def writeTypeElement : EType → String
  | .bool => "bool" | .char => "u16" | .i8 => "i8" | .u8 => "u8"
  | .i16 => "i16" | .u16 => "u16" | .i32 => "i32" | .u32 => "u32"
  | .i64 => "i64" | .u64 => "u64" | .f32 => "f32" | .f64 => "f64"
  | .string => "winrt::HString" | .object => "winrt::Object"

/-- `Writer::write_type_def`. -/
def writeTypeDefInfo (ctx : WCtx) (info : TypeRefInfo) : String :=
  String.join (writeNamespaceName ctx info.namespaceName) ++ writeIdent info.name

/-- `Writer::write_type_ref`: `System.Guid` maps to `winrt::Guid`;
otherwise the reference resolves and renders as a type definition. -/
def writeTypeRefInfo (ctx : WCtx) (info : TypeRefInfo) : String :=
  if info.name = "Guid" && info.namespaceName = "System" then "winrt::Guid"
  else writeTypeDefInfo ctx info

/-- `Writer::write_type_def_or_ref`. -/
def writeTypeDefOrRef (ctx : WCtx) : SigTypeDefOrRef → String
  | .typeDef info => writeTypeDefInfo ctx info
  | .typeRef info => writeTypeRefInfo ctx info

/-- The second-from-last character is U+0060, marking a generic arity
suffix on a metadata name (`name.chars().rev().skip(1).next()`). -/
def hasGenericSuffix (name : String) : Bool :=
  match (name.toList.reverse.drop 1).head? with
  | some c => c = Char.ofNat 96
  | none => false

mutual

/-- `Writer::write_type` (with `write_type_generic` and
`write_type_generic_index` inlined for the recursion); `gstack` is the
generic-argument stack `Writer::generics`. -/
def writeType (ctx : WCtx) (gstack : List (List String)) : TypeSig → String
  | .elementType e => writeTypeElement e
  | .typeDefOrRef t => writeTypeDefOrRef ctx t
  | .genericSig d args =>
    String.join (writeNamespaceName ctx d.namespaceName)
      ++ writeIdent (d.name.dropRight 2)
      ++ "<"
      ++ String.intercalate ", " (writeTypeArgs ctx gstack args)
      ++ ">"
  | .genericTypeIndex i =>
    match gstack.getLast? with
    | some frame => frame.getD i "!panic:write_type_generic_index"
    | none => "!panic:write_type_generic_index"

/-- The rendered argument list of `Writer::write_type_generic`. -/
def writeTypeArgs (ctx : WCtx) (gstack : List (List String)) : List TypeSig → List String
  | [] => []
  | a :: rest => writeType ctx gstack a :: writeTypeArgs ctx gstack rest

end

/-!  ABI parameter rendering (`Writer::write_abi_param` family). -/

/-- `Writer::write_abi_param_element_type`. -/
def writeAbiParamElementType : EType → String
  | .bool => "bool, " | .char => "u16, " | .i8 => "i8, " | .u8 => "u8, "
  | .i16 => "i16, " | .u16 => "u16, " | .i32 => "i32, " | .u32 => "u32, "
  | .i64 => "i64, " | .u64 => "u64, " | .f32 => "f32, " | .f64 => "f64, "
  | .string => "winrt::RawPtr, " | .object => "winrt::RawPtr, "

/-- `Writer::write_abi_param_type_def`: enums and structs pass by value
(with the `EventRegistrationToken` special case); everything else is a
raw pointer. -/
def writeAbiParamTypeDef (ctx : WCtx) (info : TypeRefInfo) : String :=
  match info.category with
  | .Enum => writeTypeDefInfo ctx info ++ ", "
  | .Struct =>
    if info.name = "EventRegistrationToken" && info.namespaceName = "Windows.Foundation" then
      "i64, "
    else writeTypeDefInfo ctx info ++ ", "
  | _ => "winrt::RawPtr, "

/-- `Writer::write_abi_param_type_ref`. -/
def writeAbiParamTypeRef (ctx : WCtx) (info : TypeRefInfo) : String :=
  if info.name = "Guid" && info.namespaceName = "System" then "winrt::Guid, "
  else writeAbiParamTypeDef ctx info

/-- `Writer::write_abi_param_type`. -/
def writeAbiParamType (ctx : WCtx) : SigTypeDefOrRef → String
  | .typeDef info => writeAbiParamTypeDef ctx info
  | .typeRef info => writeAbiParamTypeRef ctx info

/-- `Writer::write_abi_param_generic_index`. -/
def writeAbiParamGenericIndex (gstack : List (List String)) (i : Nat) : String :=
  match gstack.getLast? with
  | some frame =>
    "<" ++ frame.getD i "!panic:index" ++ " as winrt::RuntimeType>::Abi, "
  | none => "!panic:write_abi_param_generic_index"

/-- The inner `tokens` computation of `Writer::write_abi_param`: the ABI
rendering of the element/base type of the parameter before the array and
direction wrapping is applied. -/
def writeAbiParamBase (ctx : WCtx) (gstack : List (List String)) : TypeSig → String
  | .elementType e => writeAbiParamElementType e
  | .typeDefOrRef t => writeAbiParamType ctx t
  | .genericSig _ _ => "winrt::RawPtr, "
  | .genericTypeIndex i => writeAbiParamGenericIndex gstack i

/-- `Writer::write_abi_param`: array parameters become a (length, pointer)
pair — `(u32, *const T)` for input, `(*mut u32, *mut *mut T)` for
by-reference output, `(u32, *mut T)` for plain output; non-array outputs
become `*mut T`. -/
def writeAbiParam (ctx : WCtx) (gstack : List (List String)) (p : ParamSig) : String :=
  let tokens := writeAbiParamBase ctx gstack p.ty
  if p.array then
    if p.input then "u32, *const " ++ tokens
    else if p.byRef then "*mut u32, *mut *mut " ++ tokens
    else "u32, *mut " ++ tokens
  else if p.input then tokens
  else "*mut " ++ tokens

/-!  Struct emission (`Writer::write_struct_fields`).  The Rust code
panics — aborting the whole run — when the type of a field is limited; the
abort is modelled with `Except`. -/

/-- `Writer::write_struct_fields`, field by field: the first field whose
signature mentions an excluded type aborts with the diagnostic naming the
namespace and name of the struct; otherwise one field token is emitted per
field. -/
def writeStructFieldsGo (ctx : WCtx) (limits : List String) (tns tname : String) :
    List FieldRec → Except String (List String)
  | [] => .ok []
  | f :: rest =>
    if limitedType limits f.signature then
      .error ("Struct " ++ tns ++ "." ++ tname ++ " depends on excluded types")
    else
      match writeStructFieldsGo ctx limits tns tname rest with
      | .ok toks =>
        .ok (("pub " ++ writeIdent (toSnake f.name) ++ ": "
               ++ writeType ctx [] f.signature ++ ",") :: toks)
      | .error e => .error e

/-- `Writer::write_struct_fields`. -/
def writeStructFields (ctx : WCtx) (limits : List String) (t : TypeDefData) :
    Except String (List String) :=
  writeStructFieldsGo ctx limits t.namespaceName t.name t.fields

/-!  Interface composition (`Writer::add_interfaces`,
`Writer::interface_interfaces`, `Writer::class_interfaces`).  The Rust
recursion terminates because every recursive call first inserts a
previously absent definition into the deduplicated result; the embedding
carries explicit fuel consumed only by that recursion (the sibling loop
is structural), so any fuel at least the number of reachable definitions
reproduces the Rust behaviour exactly. -/

/-- The namespace of the target of an interface-implementation edge
(`interface.namespace(self.r)`). -/
def edgeNamespace (r : Reader) : EdgeTarget → String
  | .typeDef id => r.defNamespace id
  | .typeRef id => r.defNamespace id
  | .typeSpec id _ => r.defNamespace id

/-- `Writer::write_interface_ident`: path-qualified reference expression
for a composed interface, using the innermost generic frame (falling
back to the own stack of the writer) when the name carries a generic-arity
suffix. -/
def writeInterfaceIdent (r : Reader) (ctx : WCtx) (gstackSelf : List (List String))
    (id : Nat) (generics : List (List String)) : String :=
  let ns := String.join (writeNamespaceName ctx (r.defNamespace id))
  let name := r.defName id
  if hasGenericSuffix name then
    let gs :=
      match generics.getLast? with
      | some g => g
      | none => (gstackSelf.getLast?).getD ["!panic:write_interface_ident"]
    ns ++ writeIdent (name.dropRight 2) ++ "::<" ++ String.intercalate ", " gs ++ ">"
  else
    ns ++ writeIdent name

/-- `result.insert(index, value)` on a vector. -/
def insertAt (l : List Interface) (i : Nat) (a : Interface) : List Interface :=
  l.take i ++ a :: l.drop i

/-- The `Err(index)` of `binary_search_by_key` on the sorted result list:
`none` when the definition is already present, otherwise the insertion
index (the count of entries with a smaller key, which is what binary
search returns on a list sorted by definition). -/
def lookupInsert (result : List Interface) (d : Nat) : Option Nat :=
  if result.any (fun e => e.definition = some d) then none
  else some (result.countP (fun e =>
    match e.definition with
    | some k => k < d
    | none => true))

/-- `Writer::add_interfaces`: walk a list of interface-implementation
edges, tagging direct class edges carrying the default marker as
`DefaultInstance` (only when `findDefault` is set), deduplicating by
definition identity into the sorted result, recursing into the own edges of each newly
inserted interface with `findDefault` disabled, and pushing a
generic-argument frame around the recursion for `TypeSpec` edges.  The
Rust recursion terminates because every recursive call first inserts a
previously absent definition into the deduplicated result; the embedding
spends one unit of explicit fuel per step, so any fuel bound of at least
the total number of edges walked reproduces the Rust behaviour exactly
(and every theorem below holds for all fuel values). -/
def addInterfaces (r : Reader) (limits : List String) (ctx : WCtx) :
    Nat → List (List String) → List Interface → List (List String) →
    List InterfaceImplRec → Bool → List Interface
  | 0, _, result, _, _, _ => result
  | _ + 1, _, result, _, [], _ => result
  | Nat.succ fuel, gstack, result, parentGenerics, child :: rest, findDefault =>
    let category :=
      if findDefault && child.hasDefaultAttribute then InterfaceCategory.DefaultInstance
      else InterfaceCategory.Instance
    let overridable := child.hasOverridableAttribute
    let limited := !(limits.contains (edgeNamespace r child.target))
    let resolved :=
      match child.target with
      | .typeDef id => (id, parentGenerics, gstack)
      | .typeRef id => (id, parentGenerics, gstack)
      | .typeSpec id sargs =>
        let args := sargs.map (fun s => writeType ctx gstack s)
        (id, parentGenerics ++ [args], gstack ++ [args])
    let defn := resolved.1
    let generics := resolved.2.1
    let gstackInner := resolved.2.2
    let result' :=
      match lookupInsert result defn with
      | none => result
      | some index =>
        let entry : Interface :=
          { definition := some defn
            generics := generics
            overridable := overridable
            exclusive := r.defHasExclusive defn
            limited := limited
            category := category
            identifier := writeInterfaceIdent r ctx gstackInner defn generics }
        let inserted := insertAt result index entry
        addInterfaces r limits ctx fuel gstackInner inserted generics
          (r.interfacesOf defn) false
    addInterfaces r limits ctx fuel gstack result' parentGenerics rest findDefault

/-- `Writer::interface_interfaces`: walk the own required edges
of the interface, then prepend the synthetic primary (`Abi`) entry for the interface
itself at position zero. -/
def interfaceInterfaces (r : Reader) (limits : List String) (ctx : WCtx)
    (fuel : Nat) (gstack : List (List String)) (iid : Nat) : List Interface :=
  let result := addInterfaces r limits ctx fuel gstack [] [] (r.interfacesOf iid) false
  { definition := some iid
    generics := []
    overridable := false
    exclusive := false
    limited := false
    category := .Abi
    identifier := writeInterfaceIdent r ctx gstack iid [] } :: result

/-- `Writer::factory_type`: the first `TypeDef`-valued positional argument
of an attribute. -/
def factoryType (attr : AttributeRec) : Option Nat :=
  attr.args.findSome? (fun a => match a with | .typeDef id => some id | _ => none)

/-- The per-attribute step of `Writer::class_interfaces`: a
`StaticAttribute` appends its factory interface with role `Static`
(aborting when the attribute carries no type, as `expect` does); an
`ActivatableAttribute` appends its factory with role `Activatable`, or
the sentinel `DefaultActivatable` entry when it carries no type. -/
def classAttributeStep (r : Reader) (limits : List String) (ctx : WCtx)
    (res : List Interface) (attr : AttributeRec) : Except String (List Interface) :=
  if attr.name = "StaticAttribute" then
    match factoryType attr with
    | some d =>
      .ok (res ++ [{ definition := some d
                     generics := []
                     overridable := false
                     exclusive := true
                     limited := !(limits.contains (r.defNamespace d))
                     category := .Static
                     identifier := writeInterfaceIdent r ctx [] d [] }])
    | none => .error "class_interfaces"
  else if attr.name = "ActivatableAttribute" then
    match factoryType attr with
    | some d =>
      .ok (res ++ [{ definition := some d
                     generics := []
                     overridable := false
                     exclusive := true
                     limited := !(limits.contains (r.defNamespace d))
                     category := .Activatable
                     identifier := writeInterfaceIdent r ctx [] d [] }])
    | none =>
      .ok (res ++ [{ definition := none
                     generics := []
                     overridable := false
                     exclusive := true
                     limited := false
                     category := .DefaultActivatable
                     identifier := "" }])
  else .ok res

/-- The attribute loop of `Writer::class_interfaces`. -/
def classAttributesFold (r : Reader) (limits : List String) (ctx : WCtx)
    (attrs : List AttributeRec) (res : List Interface) : Except String (List Interface) :=
  match attrs with
  | [] => .ok res
  | attr :: rest =>
    match classAttributeStep r limits ctx res attr with
    | .ok res' => classAttributesFold r limits ctx rest res'
    | .error e => .error e

/-- `Writer::class_interfaces`: the direct edges of the class (default
detection enabled), then the direct edges of each base class, then the
factory interfaces named by `StaticAttribute`/`ActivatableAttribute`. -/
def classInterfaces (r : Reader) (limits : List String) (ctx : WCtx)
    (fuel : Nat) (clsId : Nat) : Except String (List Interface) :=
  let cls := r.data clsId
  let result := addInterfaces r limits ctx fuel [] [] [] cls.interfaces true
  let result := cls.bases.foldl
    (fun res b => addInterfaces r limits ctx fuel [] res [] (r.interfacesOf b) false)
    result
  classAttributesFold r limits ctx cls.attributes result

/-!  Concrete metadata fixtures used by the examples below. -/

/-- An empty raw signature for fixture methods. -/
def emptySig : MethodSig := { params := [], returnType := none }

/-- A fixture raw method with no attributes and an empty signature. -/
def mkMethod (name : String) (cat : MethodCategory) : MethodDefRec :=
  { name := name, attributes := [], category := cat, sig := emptySig }

/-- A fixture composed-interface entry. -/
def mkIface (d : Option Nat) (cat : InterfaceCategory) : Interface :=
  { definition := d, generics := [], overridable := false, exclusive := false,
    limited := false, category := cat, identifier := "" }

/-- A fixture interface type definition in namespace `N`. -/
def mkIfaceDef (name : String) (methods : List MethodDefRec)
    (edges : List InterfaceImplRec) : TypeDefData :=
  { namespaceName := "N", name := name, methods := methods, fields := [],
    interfaces := edges, bases := [], attributes := [], hasExclusiveTo := false,
    generics := [] }

/-- A plain (non-default, non-overridable) edge to a type definition. -/
def mkEdge (id : Nat) : InterfaceImplRec :=
  { hasDefaultAttribute := false, hasOverridableAttribute := false,
    target := .typeDef id }

/-- An edge carrying the default marker attribute. -/
def mkDefaultEdge (id : Nat) : InterfaceImplRec :=
  { hasDefaultAttribute := true, hasOverridableAttribute := false,
    target := .typeDef id }

/-- The writer context for the fixtures: generating namespace `N`,
not inside the `abi`/`traits` sub-module. -/
def fixtureCtx : WCtx := { namespaceName := "N", subMod := false }

/-- The fixture inclusion set. -/
def fixtureLimits : List String := ["N"]

/-- Fixture for the collision-bookkeeping example: two non-primary
interfaces each declaring plain method `X`, and a primary interface
declaring two accessors that both project to `x`. -/
def c1Reader : Reader :=
  { types :=
      [ mkIfaceDef "I1" [mkMethod "X" .Normal] []
      , mkIfaceDef "I2" [mkMethod "X" .Normal] []
      , mkIfaceDef "I3" [mkMethod "get_X" .Get, mkMethod "add_X" .Add] [] ] }

/-- The composed-interface list for the collision-bookkeeping example. -/
def c1Interfaces : List Interface :=
  [mkIface (some 0) .Instance, mkIface (some 1) .Instance, mkIface (some 2) .Abi]

/-- Fixture class whose two direct interface edges both carry the default
marker attribute. -/
def c2Reader : Reader :=
  { types :=
      [ mkIfaceDef "C" [] [mkDefaultEdge 1, mkDefaultEdge 2]
      , mkIfaceDef "ID1" [] []
      , mkIfaceDef "ID2" [] [] ] }

/-- Fixture class with a required-interface diamond (B and C both require
D) and two `ActivatableAttribute` markers naming the same factory F. -/
def c5Reader : Reader :=
  { types :=
      [ { namespaceName := "N", name := "Cls", methods := [], fields := [],
          interfaces := [mkEdge 1, mkEdge 2], bases := [],
          attributes :=
            [ { namespaceName := "Windows.Foundation.Metadata",
                name := "ActivatableAttribute", args := [.typeDef 4] }
            , { namespaceName := "Windows.Foundation.Metadata",
                name := "ActivatableAttribute", args := [.typeDef 4] } ],
          hasExclusiveTo := false, generics := [] }
      , mkIfaceDef "B" [] [mkEdge 3]
      , mkIfaceDef "C" [] [mkEdge 3]
      , mkIfaceDef "D" [] []
      , mkIfaceDef "F" [] [] ] }

/-- Fixture struct with one field whose type lives in namespace
`Excluded.Ns`, outside the fixture inclusion set. -/
def c7Struct : TypeDefData :=
  { namespaceName := "N", name := "S",
    methods := [],
    fields :=
      [ { name := "Value"
        , signature := .typeDefOrRef (.typeDef
            { namespaceName := "Excluded.Ns", name := "T", category := .Struct }) } ],
    interfaces := [], bases := [], attributes := [], hasExclusiveTo := false,
    generics := [] }

/-!  Helper lemmas. -/

/-- A list containing an entry with the sought name yields a hit in the
`position` lookup of `Writer::methods`. -/
theorem findIdx_name_some (n : String) :
    ∀ acc : List Method, (∃ mm ∈ acc, mm.name = n) →
      ∃ pos, acc.findIdx? (fun mm => mm.name = n) = some pos := by
  intro acc
  induction acc with
  | nil => rintro ⟨mm, hmem, _⟩; simp at hmem
  | cons a l ih =>
    rintro ⟨mm, hmem, hname⟩
    by_cases ha : a.name = n
    · exact ⟨0, by simp [List.findIdx?_cons, ha]⟩
    · rcases List.mem_cons.mp hmem with h | h
      · exact absurd (h ▸ hname) ha
      · obtain ⟨pos, hpos⟩ := ih ⟨mm, h, hname⟩
        exact ⟨pos + 1, by simp [List.findIdx?_cons, ha, hpos]⟩

/-- `skipCommon` drops exactly the longest common leading segment
sequence from both lists. -/
theorem skipCommon_eq : ∀ s d : List String,
    skipCommon s d = (s.drop (commonPrefixLen s d), d.drop (commonPrefixLen s d)) := by
  intro s
  induction s with
  | nil => intro d; cases d <;> simp [skipCommon, commonPrefixLen]
  | cons a s ih =>
    intro d
    cases d with
    | nil => simp [skipCommon, commonPrefixLen]
    | cons b d =>
      by_cases hab : a = b
      · simp [skipCommon, commonPrefixLen, hab, ih]
      · simp [skipCommon, commonPrefixLen, hab]

/-- The longest common leading sequence of a list with itself is the
whole list. -/
theorem commonPrefixLen_self : ∀ l : List String, commonPrefixLen l l = l.length := by
  intro l
  induction l with
  | nil => simp [commonPrefixLen]
  | cons a l ih => simp [commonPrefixLen, ih]

/-!  Claim theorems. -/

/-- C8.  The namespace path resolver: for any two dot-separated namespace
strings it emits one up-level token per source segment beyond the longest
shared leading segment sequence, followed by one case-folded path segment
per remaining destination segment; `"A.B.C"` to `"A.B.D.E"` yields one
up-level plus segments `d`, `e`, and a source equal to its destination
yields the empty path. -/
theorem c8_namespace_path_resolver :
    (∀ source dest : String,
      writeNamespaceName { namespaceName := source, subMod := false } dest
        = namespacePathSpec source dest)
    ∧ (∀ source : String,
        writeNamespaceName { namespaceName := source, subMod := false } source = [])
    ∧ writeNamespaceName { namespaceName := "A.B.C", subMod := false } "A.B.D.E"
        = ["super::", "d::", "e::"]
    ∧ writeNamespaceName { namespaceName := "A.B", subMod := false } "A.B" = [] := by
  have hgen : ∀ source dest : String,
      writeNamespaceName { namespaceName := source, subMod := false } dest
        = namespacePathSpec source dest := by
    intro source dest
    simp [writeNamespaceName, namespacePathSpec, skipCommon_eq, writeIdent]
  refine ⟨hgen, ?_, by decide, by decide⟩
  intro source
  rw [hgen]
  simp [namespacePathSpec, commonPrefixLen_self, List.drop_length]

/-- C9.  The ABI fragment of every array parameter is a (length, pointer)
pair: input arrays are an unsigned 32-bit length plus a pointer-to-const
element type; plain output arrays an unsigned 32-bit length plus a
pointer-to-mutable element type; by-reference output arrays a
pointer-to-length plus a pointer-to-pointer to the element type. -/
theorem c9_abi_array_params :
    ∀ (ctx : WCtx) (gstack : List (List String)) (p : ParamSig), p.array = true →
      (p.input = true →
        writeAbiParam ctx gstack p = "u32, *const " ++ writeAbiParamBase ctx gstack p.ty)
      ∧ (p.input = false → p.byRef = true →
        writeAbiParam ctx gstack p = "*mut u32, *mut *mut " ++ writeAbiParamBase ctx gstack p.ty)
      ∧ (p.input = false → p.byRef = false →
        writeAbiParam ctx gstack p = "u32, *mut " ++ writeAbiParamBase ctx gstack p.ty) := by
  intro ctx gstack p harr
  refine ⟨?_, ?_, ?_⟩
  · intro hin; simp [writeAbiParam, harr, hin]
  · intro hin hby; simp [writeAbiParam, harr, hin, hby]
  · intro hin hby; simp [writeAbiParam, harr, hin, hby]

/-- Witness for C9 at concrete `i32` array parameters. -/
theorem c9_abi_array_params_witness :
    writeAbiParam fixtureCtx []
        { name := "v", ty := .elementType .i32, input := true, byRef := false, array := true }
      = "u32, *const i32, "
    ∧ writeAbiParam fixtureCtx []
        { name := "v", ty := .elementType .i32, input := false, byRef := true, array := true }
      = "*mut u32, *mut *mut i32, "
    ∧ writeAbiParam fixtureCtx []
        { name := "v", ty := .elementType .i32, input := false, byRef := false, array := true }
      = "u32, *mut i32, " :=
  ⟨((c9_abi_array_params fixtureCtx []
      { name := "v", ty := .elementType .i32, input := true, byRef := false, array := true }
      rfl).1 rfl).trans rfl,
   ((c9_abi_array_params fixtureCtx []
      { name := "v", ty := .elementType .i32, input := false, byRef := true, array := true }
      rfl).2.1 rfl rfl).trans rfl,
   ((c9_abi_array_params fixtureCtx []
      { name := "v", ty := .elementType .i32, input := false, byRef := false, array := true }
      rfl).2.2 rfl rfl).trans rfl⟩

/-- C7.  A struct with at least one field whose type lives outside the
inclusion set aborts generation with a diagnostic naming the namespace
and name of the struct; when no field is limited, one field token is emitted
per field (no field is silently dropped). -/
theorem c7_struct_excluded_field_aborts :
    ∀ (ctx : WCtx) (limits : List String) (t : TypeDefData),
      ((∃ f ∈ t.fields, limitedType limits f.signature = true) →
        writeStructFields ctx limits t
          = .error ("Struct " ++ t.namespaceName ++ "." ++ t.name
                      ++ " depends on excluded types"))
      ∧ ((∀ f ∈ t.fields, limitedType limits f.signature = false) →
        ∃ toks, writeStructFields ctx limits t = .ok toks
          ∧ toks.length = t.fields.length) := by
  intro ctx limits t
  have hgo : ∀ fs : List FieldRec,
      ((∃ f ∈ fs, limitedType limits f.signature = true) →
        writeStructFieldsGo ctx limits t.namespaceName t.name fs
          = .error ("Struct " ++ t.namespaceName ++ "." ++ t.name
                      ++ " depends on excluded types"))
      ∧ ((∀ f ∈ fs, limitedType limits f.signature = false) →
        ∃ toks, writeStructFieldsGo ctx limits t.namespaceName t.name fs = .ok toks
          ∧ toks.length = fs.length) := by
    intro fs
    induction fs with
    | nil =>
      exact ⟨by rintro ⟨f, hmem, _⟩; simp at hmem, fun _ => ⟨[], rfl, rfl⟩⟩
    | cons f rest ih =>
      constructor
      · rintro ⟨g, hmem, hlim⟩
        by_cases hf : limitedType limits f.signature = true
        · simp [writeStructFieldsGo, hf]
        · rcases List.mem_cons.mp hmem with h | h
          · exact absurd (h ▸ hlim) hf
          · have := ih.1 ⟨g, h, hlim⟩
            simp [writeStructFieldsGo, hf, this]
      · intro hall
        have hf : limitedType limits f.signature = false :=
          hall f (List.mem_cons_self f rest)
        obtain ⟨toks, hok, hlen⟩ := ih.2 (fun g hg => hall g (List.mem_cons_of_mem f hg))
        refine ⟨("pub " ++ writeIdent (toSnake f.name) ++ ": "
                  ++ writeType ctx [] f.signature ++ ",") :: toks, ?_, ?_⟩
        · simp [writeStructFieldsGo, hf, hok]
        · simp [hlen]
  exact ⟨fun h => hgo t.fields |>.1 h, fun h => hgo t.fields |>.2 h⟩

/-- Witness for C7: the fixture struct `N.S` with a field typed in the
excluded namespace `Excluded.Ns` aborts with the expected diagnostic. -/
theorem c7_struct_excluded_field_aborts_witness :
    writeStructFields fixtureCtx fixtureLimits c7Struct
      = .error "Struct N.S depends on excluded types" :=
  ((c7_struct_excluded_field_aborts fixtureCtx fixtureLimits c7Struct).1
    ⟨_, List.mem_cons_self _ _, by decide⟩).trans
    (congrArg Except.error (by decide))

/-- C4.  A method of a non-primary interface whose projected name matches
an already-projected method is marked excluded rather than renamed: the
accumulated list is extended unchanged (no previously projected name is
touched) with the new candidate carrying `limited = true`, and the
flattened public surface (`write_methods`) contains no limited method. -/
theorem c4_required_interface_collision_excludes :
    (∀ (limits : List String) (i : Interface) (acc : List Method) (m : MethodDefRec),
      i.category ≠ .Abi →
      (∃ mm ∈ acc, mm.name = methodName m) →
      methodsStep limits i acc m
        = acc ++ [{ name := methodName m, sig := m.sig, category := m.category,
                    interface := i, limited := true }])
    ∧ (∀ ms : List Method, ∀ mm ∈ writeMethodsKept ms, mm.limited = false) := by
  constructor
  · intro limits i acc m hcat hex
    obtain ⟨pos, hpos⟩ := findIdx_name_some (methodName m) acc hex
    simp [methodsStep, hpos, hcat]
  · intro ms mm hmm
    have h := (List.mem_filter.mp hmm).2
    simp only [Bool.and_eq_true, Bool.not_eq_true'] at h
    exact h.1

/-- Witness for C4: a required-interface method `Value` colliding with a
primary-surface `value` is excluded, leaving the prior entry unchanged. -/
theorem c4_required_interface_collision_excludes_witness :
    methodsStep fixtureLimits (mkIface (some 3) .Instance)
        [{ name := "value", sig := emptySig, category := .Normal,
           interface := mkIface (some 0) .Abi, limited := false }]
        (mkMethod "Value" .Normal)
      = [{ name := "value", sig := emptySig, category := .Normal,
           interface := mkIface (some 0) .Abi, limited := false }]
        ++ [{ name := methodName (mkMethod "Value" .Normal),
              sig := (mkMethod "Value" .Normal).sig, category := .Normal,
              interface := mkIface (some 3) .Instance, limited := true }]
    ∧ methodName (mkMethod "Value" .Normal) = "value" :=
  ⟨c4_required_interface_collision_excludes.1 fixtureLimits
      (mkIface (some 3) .Instance) _ (mkMethod "Value" .Normal) (by decide)
      ⟨{ name := "value", sig := emptySig, category := .Normal,
         interface := mkIface (some 0) .Abi, limited := false },
        List.mem_singleton.mpr rfl, by decide⟩,
   by decide⟩

/-- C1 (amended).  A collision-excluded method is not absent from the
projection bookkeeping: it stays in the projected list under its name and
later collision lookups treat it like any other entry — a later
same-named method on a non-primary interface is excluded even when every
prior holder of the name is itself excluded, and on the primary interface
the `position` lookup renames whatever entry it finds first, excluded or
not. -/
theorem c1_excluded_entries_still_block :
    (∀ (limits : List String) (i : Interface) (acc : List Method) (m : MethodDefRec),
      i.category ≠ .Abi →
      (∃ mm ∈ acc, mm.limited = true ∧ mm.name = methodName m) →
      methodsStep limits i acc m
        = acc ++ [{ name := methodName m, sig := m.sig, category := m.category,
                    interface := i, limited := true }])
    ∧ (∀ (limits : List String) (i : Interface) (acc : List Method) (m : MethodDefRec)
        (pos : Nat),
      i.category = .Abi → ¬ m.category = .Normal →
      acc.findIdx? (fun mm => mm.name = methodName m) = some pos →
      methodsStep limits i acc m
        = renameAt acc pos
          ++ [{ name := methodName m, sig := m.sig, category := m.category,
                interface := i, limited := limitedMethod limits m.sig }]) := by
  constructor
  · intro limits i acc m hcat hex
    obtain ⟨mm, hmem, _, hname⟩ := hex
    obtain ⟨pos, hpos⟩ := findIdx_name_some (methodName m) acc ⟨mm, hmem, hname⟩
    simp [methodsStep, hpos, hcat]
  · intro limits i acc m pos hAbi hnn hpos
    simp [methodsStep, hpos, hAbi, hnn]

/-- Counterexample for C1.  On a composed list holding two non-primary
interfaces with plain method `X` followed by the primary interface with
two accessors projecting `x`, the generated surface is `x2`, `x`, `x`;
under the bookkeeping of the spec (a collision-excluded slot "is simply
absent" from later checks) it would be `x2`, `x2`, `x` — the collision
lookup of the second accessor lands on the collision-excluded slot and
renames it instead of the live `x` holder, so excluded slots do
participate in later collision checks, contradicting the claim. -/
theorem c1_counterexample :
    (writeMethodsKept (methodsModel c1Reader fixtureLimits c1Interfaces)).map
        (fun m => m.name) = ["x2", "x", "x"]
    ∧ (writeMethodsKept (methodsModelSpecC1 c1Reader fixtureLimits c1Interfaces)).map
        (fun m => m.name) = ["x2", "x2", "x"]
    ∧ ¬ (writeMethodsKept (methodsModel c1Reader fixtureLimits c1Interfaces)).map
          (fun m => m.name)
        = (writeMethodsKept (methodsModelSpecC1 c1Reader fixtureLimits c1Interfaces)).map
            (fun m => m.name) :=
  ⟨by decide, by decide, by decide⟩

/-- Witness for C1 (amended): a later `X` on a required interface is
excluded although the only prior holder of `x` is itself excluded. -/
theorem c1_excluded_entries_still_block_witness :
    methodsStep fixtureLimits (mkIface (some 5) .Instance)
        [{ name := "x", sig := emptySig, category := .Normal,
           interface := mkIface (some 1) .Instance, limited := true }]
        (mkMethod "X" .Normal)
      = [{ name := "x", sig := emptySig, category := .Normal,
           interface := mkIface (some 1) .Instance, limited := true }]
        ++ [{ name := methodName (mkMethod "X" .Normal),
              sig := (mkMethod "X" .Normal).sig, category := .Normal,
              interface := mkIface (some 5) .Instance, limited := true }]
    ∧ methodName (mkMethod "X" .Normal) = "x" :=
  ⟨c1_excluded_entries_still_block.1 fixtureLimits (mkIface (some 5) .Instance) _
      (mkMethod "X" .Normal) (by decide)
      ⟨{ name := "x", sig := emptySig, category := .Normal,
         interface := mkIface (some 1) .Instance, limited := true },
        List.mem_singleton.mpr rfl, by decide, by decide⟩,
   by decide⟩

/-- C3.  When two methods of the primary (`Abi`) interface project to the
same name and exactly one of them is a plain (`Normal`) method, the
final name of the plain method receives the literal suffix `2` and the
accessor-derived method keeps the unsuffixed name, in whichever order the
two are encountered. -/
theorem c3_primary_collision_plain_gets_suffix :
    ∀ (limits : List String) (i : Interface) (m1 m2 : MethodDefRec),
      i.category = .Abi →
      methodName m1 = methodName m2 →
      ((m1.category = .Normal ∧ ¬ m2.category = .Normal)
        ∨ (¬ m1.category = .Normal ∧ m2.category = .Normal)) →
      (methodsStep limits i (methodsStep limits i [] m1) m2).map
          (fun mm => (mm.name, mm.category))
        = if m1.category = .Normal
          then [(methodName m1 ++ "2", m1.category), (methodName m1, m2.category)]
          else [(methodName m1, m1.category), (methodName m1 ++ "2", m2.category)] := by
  intro limits i m1 m2 hAbi hn hx
  have h1 : methodsStep limits i [] m1
      = [{ name := methodName m1, sig := m1.sig, category := m1.category,
           interface := i, limited := limitedMethod limits m1.sig }] := by
    simp [methodsStep]
  rw [h1]
  have hfind : ([{ name := methodName m1, sig := m1.sig, category := m1.category,
                   interface := i, limited := limitedMethod limits m1.sig }] :
        List Method).findIdx? (fun mm => mm.name = methodName m2) = some 0 := by
    simp [List.findIdx?_cons, hn]
  rcases hx with ⟨hx1, hx2⟩ | ⟨hx1, hx2⟩
  · simp [methodsStep, hfind, hAbi, hx1, hx2, renameAt, ← hn]
  · simp [methodsStep, hfind, hAbi, hx1, hx2, ← hn]

/-- Witness for C3 in both orders: plain `Close` plus accessor
`get_Close` yields `close2` for the plain method and `close` for the
accessor, whichever is declared first. -/
theorem c3_primary_collision_plain_gets_suffix_witness :
    (methodsStep fixtureLimits (mkIface (some 9) .Abi)
        (methodsStep fixtureLimits (mkIface (some 9) .Abi) [] (mkMethod "Close" .Normal))
        (mkMethod "get_Close" .Get)).map (fun mm => (mm.name, mm.category))
      = [("close2", .Normal), ("close", .Get)]
    ∧ (methodsStep fixtureLimits (mkIface (some 9) .Abi)
        (methodsStep fixtureLimits (mkIface (some 9) .Abi) [] (mkMethod "get_Close" .Get))
        (mkMethod "Close" .Normal)).map (fun mm => (mm.name, mm.category))
      = [("close", .Get), ("close2", .Normal)] :=
  ⟨(c3_primary_collision_plain_gets_suffix fixtureLimits (mkIface (some 9) .Abi)
      (mkMethod "Close" .Normal) (mkMethod "get_Close" .Get) rfl (by decide)
      (Or.inl (by decide))).trans (by decide),
   (c3_primary_collision_plain_gets_suffix fixtureLimits (mkIface (some 9) .Abi)
      (mkMethod "get_Close" .Get) (mkMethod "Close" .Normal) rfl (by decide)
      (Or.inr (by decide))).trans (by decide)⟩

/-- C10.  A projected method of accessor category `Remove` never appears
in the generated public method surface (the `write_methods` filter drops
it regardless of its `limited` flag), yet the projection pass appends it
to the projected list under its projected name, and that name
participates in later collision checks: a later same-named method on a
non-primary interface is excluded because of it. -/
theorem c10_remove_methods_hidden_but_reserved :
    (∀ ms : List Method, ∀ mm ∈ writeMethodsKept ms, ¬ mm.category = .Remove)
    ∧ (∀ (limits : List String) (i : Interface) (acc : List Method) (m : MethodDefRec),
        acc.findIdx? (fun mm => mm.name = methodName m) = none →
        methodsStep limits i acc m
          = acc ++ [{ name := methodName m, sig := m.sig, category := m.category,
                      interface := i, limited := limitedMethod limits m.sig }])
    ∧ (∀ (limits : List String) (i : Interface) (acc : List Method) (m : MethodDefRec),
        i.category ≠ .Abi →
        (∃ mm ∈ acc, mm.category = .Remove ∧ mm.name = methodName m) →
        methodsStep limits i acc m
          = acc ++ [{ name := methodName m, sig := m.sig, category := m.category,
                      interface := i, limited := true }]) := by
  refine ⟨?_, ?_, ?_⟩
  · intro ms mm hmm
    have h := (List.mem_filter.mp hmm).2
    simp only [Bool.and_eq_true, Bool.not_eq_true', decide_eq_false_iff_not] at h
    exact h.2
  · intro limits i acc m hnone
    simp [methodsStep, hnone]
  · intro limits i acc m hcat hex
    obtain ⟨mm, hmem, _, hname⟩ := hex
    obtain ⟨pos, hpos⟩ := findIdx_name_some (methodName m) acc ⟨mm, hmem, hname⟩
    simp [methodsStep, hpos, hcat]

/-- Witness for C10: a `Remove` accessor `remove_Closed` is projected
into the list as `remove_closed`; a later plain `RemoveClosed` on a
required interface collides with it and is excluded; and the kept
surface of a list holding only that `Remove` method is empty. -/
theorem c10_remove_methods_hidden_but_reserved_witness :
    methodsStep fixtureLimits (mkIface (some 2) .Instance) []
        (mkMethod "remove_Closed" .Remove)
      = [{ name := methodName (mkMethod "remove_Closed" .Remove),
           sig := (mkMethod "remove_Closed" .Remove).sig, category := .Remove,
           interface := mkIface (some 2) .Instance, limited := false }]
    ∧ methodName (mkMethod "remove_Closed" .Remove) = "remove_closed"
    ∧ methodsStep fixtureLimits (mkIface (some 4) .Instance)
        [{ name := "remove_closed", sig := emptySig, category := .Remove,
           interface := mkIface (some 2) .Instance, limited := false }]
        (mkMethod "RemoveClosed" .Normal)
      = [{ name := "remove_closed", sig := emptySig, category := .Remove,
           interface := mkIface (some 2) .Instance, limited := false }]
        ++ [{ name := methodName (mkMethod "RemoveClosed" .Normal),
              sig := (mkMethod "RemoveClosed" .Normal).sig, category := .Normal,
              interface := mkIface (some 4) .Instance, limited := true }]
    ∧ writeMethodsKept
        [{ name := "remove_closed", sig := emptySig, category := .Remove,
           interface := mkIface (some 2) .Instance, limited := false }] = [] :=
  ⟨c10_remove_methods_hidden_but_reserved.2.1 fixtureLimits (mkIface (some 2) .Instance)
      [] (mkMethod "remove_Closed" .Remove) rfl,
   by decide,
   c10_remove_methods_hidden_but_reserved.2.2 fixtureLimits (mkIface (some 4) .Instance) _
      (mkMethod "RemoveClosed" .Normal) (by decide)
      ⟨{ name := "remove_closed", sig := emptySig, category := .Remove,
         interface := mkIface (some 2) .Instance, limited := false },
        List.mem_singleton.mpr rfl, by decide, by decide⟩,
   by simp [writeMethodsKept]⟩

/-- Vector insertion is a permutation of consing. -/
theorem insertAt_perm (l : List Interface) (i : Nat) (a : Interface) :
    List.Perm (insertAt l i a) (a :: l) := by
  unfold insertAt
  calc List.Perm (l.take i ++ a :: l.drop i) (a :: (l.take i ++ l.drop i)) :=
        List.perm_middle
    _ = (a :: l) := by rw [List.take_append_drop]

/-- Counting through a vector insertion. -/
theorem countP_insertAt (l : List Interface) (i : Nat) (a : Interface)
    (p : Interface → Bool) :
    (insertAt l i a).countP p = l.countP p + (if p a then 1 else 0) := by
  rw [(insertAt_perm l i a).countP_eq, List.countP_cons]

/-- A successful dedup lookup means the definition is absent. -/
theorem lookupInsert_some_not_mem (result : List Interface) (d : Nat) (idx : Nat) :
    lookupInsert result d = some idx → ∀ e ∈ result, ¬ e.definition = some d := by
  intro h e hmem hd
  unfold lookupInsert at h
  rw [if_pos (List.any_eq_true.mpr ⟨e, hmem, by simp [hd]⟩)] at h
  exact Option.noConfusion h

/-- The composition walk adds at most one `DefaultInstance` entry per
direct child edge carrying the default marker, and none at all when
default detection is disabled (as it is for every transitive and
base-class edge). -/
theorem addInterfaces_countDI :
    ∀ (r : Reader) (limits : List String) (ctx : WCtx) (fuel : Nat)
      (gstack : List (List String)) (result : List Interface)
      (pg : List (List String)) (children : List InterfaceImplRec) (fd : Bool),
      (addInterfaces r limits ctx fuel gstack result pg children fd).countP
          (fun e => e.category = InterfaceCategory.DefaultInstance)
        ≤ result.countP (fun e => e.category = InterfaceCategory.DefaultInstance)
          + (if fd then children.countP (fun c => c.hasDefaultAttribute) else 0) := by
  intro r limits ctx fuel
  induction fuel with
  | zero =>
    intro gstack result pg children fd
    simp [addInterfaces]
  | succ fuel ih =>
    intro gstack result pg children fd
    cases children with
    | nil => simp [addInterfaces]
    | cons child rest =>
      obtain ⟨hdef, hover, target⟩ := child
      have hrest : (if fd then rest.countP (fun c => c.hasDefaultAttribute) else 0)
          + (if fd && hdef then 1 else 0)
          ≤ (if fd then
              (List.countP (fun c => c.hasDefaultAttribute)
                (⟨hdef, hover, target⟩ :: rest)) else 0) := by
        cases fd <;> cases hdef <;> simp [List.countP_cons]
      cases target with
      | typeDef id =>
        cases hlook : lookupInsert result id with
        | none =>
          simp only [addInterfaces, hlook]
          refine le_trans (ih gstack result pg rest fd) ?_
          have := hrest
          omega
        | some index =>
          simp only [addInterfaces, hlook]
          refine le_trans (ih gstack _ pg rest fd) ?_
          have hdeep := ih gstack (insertAt result index
              { definition := some id, generics := pg, overridable := hover,
                exclusive := r.defHasExclusive id,
                limited := !(limits.contains (edgeNamespace r (.typeDef id))),
                category := if fd && hdef then InterfaceCategory.DefaultInstance
                            else InterfaceCategory.Instance,
                identifier := writeInterfaceIdent r ctx gstack id pg })
            pg (r.interfacesOf id) false
          simp only [Bool.false_eq_true, if_false, Nat.add_zero] at hdeep
          have hins : (insertAt result index
              { definition := some id, generics := pg, overridable := hover,
                exclusive := r.defHasExclusive id,
                limited := !(limits.contains (edgeNamespace r (.typeDef id))),
                category := if fd && hdef then InterfaceCategory.DefaultInstance
                            else InterfaceCategory.Instance,
                identifier := writeInterfaceIdent r ctx gstack id pg }).countP
              (fun e => e.category = InterfaceCategory.DefaultInstance)
              ≤ result.countP (fun e => e.category = InterfaceCategory.DefaultInstance)
                + (if fd && hdef then 1 else 0) := by
            rw [countP_insertAt]
            cases fd <;> cases hdef <;> simp
          omega
      | typeRef id =>
        cases hlook : lookupInsert result id with
        | none =>
          simp only [addInterfaces, hlook]
          refine le_trans (ih gstack result pg rest fd) ?_
          have := hrest
          omega
        | some index =>
          simp only [addInterfaces, hlook]
          refine le_trans (ih gstack _ pg rest fd) ?_
          have hdeep := ih gstack (insertAt result index
              { definition := some id, generics := pg, overridable := hover,
                exclusive := r.defHasExclusive id,
                limited := !(limits.contains (edgeNamespace r (.typeRef id))),
                category := if fd && hdef then InterfaceCategory.DefaultInstance
                            else InterfaceCategory.Instance,
                identifier := writeInterfaceIdent r ctx gstack id pg })
            pg (r.interfacesOf id) false
          simp only [Bool.false_eq_true, if_false, Nat.add_zero] at hdeep
          have hins : (insertAt result index
              { definition := some id, generics := pg, overridable := hover,
                exclusive := r.defHasExclusive id,
                limited := !(limits.contains (edgeNamespace r (.typeRef id))),
                category := if fd && hdef then InterfaceCategory.DefaultInstance
                            else InterfaceCategory.Instance,
                identifier := writeInterfaceIdent r ctx gstack id pg }).countP
              (fun e => e.category = InterfaceCategory.DefaultInstance)
              ≤ result.countP (fun e => e.category = InterfaceCategory.DefaultInstance)
                + (if fd && hdef then 1 else 0) := by
            rw [countP_insertAt]
            cases fd <;> cases hdef <;> simp
          omega
      | typeSpec id sargs =>
        cases hlook : lookupInsert result id with
        | none =>
          simp only [addInterfaces, hlook]
          refine le_trans (ih gstack result pg rest fd) ?_
          have := hrest
          omega
        | some index =>
          simp only [addInterfaces, hlook]
          refine le_trans (ih gstack _ pg rest fd) ?_
          have hdeep := ih (gstack ++ [sargs.map (fun s => writeType ctx gstack s)])
            (insertAt result index
              { definition := some id,
                generics := pg ++ [sargs.map (fun s => writeType ctx gstack s)],
                overridable := hover,
                exclusive := r.defHasExclusive id,
                limited := !(limits.contains (edgeNamespace r (.typeSpec id sargs))),
                category := if fd && hdef then InterfaceCategory.DefaultInstance
                            else InterfaceCategory.Instance,
                identifier := writeInterfaceIdent r ctx
                  (gstack ++ [sargs.map (fun s => writeType ctx gstack s)]) id
                  (pg ++ [sargs.map (fun s => writeType ctx gstack s)]) })
            (pg ++ [sargs.map (fun s => writeType ctx gstack s)])
            (r.interfacesOf id) false
          simp only [Bool.false_eq_true, if_false, Nat.add_zero] at hdeep
          have hins : (insertAt result index
              { definition := some id,
                generics := pg ++ [sargs.map (fun s => writeType ctx gstack s)],
                overridable := hover,
                exclusive := r.defHasExclusive id,
                limited := !(limits.contains (edgeNamespace r (.typeSpec id sargs))),
                category := if fd && hdef then InterfaceCategory.DefaultInstance
                            else InterfaceCategory.Instance,
                identifier := writeInterfaceIdent r ctx
                  (gstack ++ [sargs.map (fun s => writeType ctx gstack s)]) id
                  (pg ++ [sargs.map (fun s => writeType ctx gstack s)]) }).countP
              (fun e => e.category = InterfaceCategory.DefaultInstance)
              ≤ result.countP (fun e => e.category = InterfaceCategory.DefaultInstance)
                + (if fd && hdef then 1 else 0) := by
            rw [countP_insertAt]
            cases fd <;> cases hdef <;> simp
          omega

/-- Factory entries appended by the attribute loop never carry role
`DefaultInstance`. -/
theorem classAttributeStep_countDI :
    ∀ (r : Reader) (limits : List String) (ctx : WCtx) (res : List Interface)
      (attr : AttributeRec) (res' : List Interface),
      classAttributeStep r limits ctx res attr = .ok res' →
      res'.countP (fun e => e.category = InterfaceCategory.DefaultInstance)
        = res.countP (fun e => e.category = InterfaceCategory.DefaultInstance) := by
  intro r limits ctx res attr res' h
  unfold classAttributeStep at h
  by_cases h1 : attr.name = "StaticAttribute"
  · rw [if_pos h1] at h
    cases hf : factoryType attr with
    | some d =>
      rw [hf] at h
      simp only [Except.ok.injEq] at h
      subst h
      simp [List.countP_append, List.countP_cons]
    | none => rw [hf] at h; exact absurd h (by simp)
  · rw [if_neg h1] at h
    by_cases h2 : attr.name = "ActivatableAttribute"
    · rw [if_pos h2] at h
      cases hf : factoryType attr with
      | some d =>
        rw [hf] at h
        simp only [Except.ok.injEq] at h
        subst h
        simp [List.countP_append, List.countP_cons]
      | none =>
        rw [hf] at h
        simp only [Except.ok.injEq] at h
        subst h
        simp [List.countP_append, List.countP_cons]
    · rw [if_neg h2] at h
      simp only [Except.ok.injEq] at h
      subst h
      rfl

/-- The attribute loop of `class_interfaces` leaves the `DefaultInstance`
count unchanged. -/
theorem classAttributesFold_countDI :
    ∀ (r : Reader) (limits : List String) (ctx : WCtx) (attrs : List AttributeRec)
      (res l : List Interface),
      classAttributesFold r limits ctx attrs res = .ok l →
      l.countP (fun e => e.category = InterfaceCategory.DefaultInstance)
        = res.countP (fun e => e.category = InterfaceCategory.DefaultInstance) := by
  intro r limits ctx attrs
  induction attrs with
  | nil =>
    intro res l h
    simp only [classAttributesFold, Except.ok.injEq] at h
    rw [h]
  | cons attr rest ih =>
    intro res l h
    simp only [classAttributesFold] at h
    cases hstep : classAttributeStep r limits ctx res attr with
    | error e => rw [hstep] at h; exact absurd h (by simp)
    | ok res' =>
      rw [hstep] at h
      rw [ih res' l h]
      exact classAttributeStep_countDI r limits ctx res attr res' hstep

/-- Base-class walks (default detection disabled) add no `DefaultInstance`
entries. -/
theorem basesFold_countDI :
    ∀ (r : Reader) (limits : List String) (ctx : WCtx) (fuel : Nat)
      (bases : List Nat) (res : List Interface),
      ((bases.foldl
          (fun res b => addInterfaces r limits ctx fuel [] res [] (r.interfacesOf b) false)
          res).countP (fun e => e.category = InterfaceCategory.DefaultInstance))
        ≤ res.countP (fun e => e.category = InterfaceCategory.DefaultInstance) := by
  intro r limits ctx fuel bases
  induction bases with
  | nil => intro res; simp
  | cons b rest ih =>
    intro res
    simp only [List.foldl_cons]
    refine le_trans (ih _) ?_
    have := addInterfaces_countDI r limits ctx fuel [] res [] (r.interfacesOf b) false
    simpa using this

/-- C2 (amended).  The composed list of a class contains at most one
`DefaultInstance` entry per directly implemented interface edge carrying
the default marker attribute (so at most one whenever at most one direct
edge is marked); transitive edges, base-class edges and factory
attributes never contribute a `DefaultInstance` entry. -/
theorem c2_default_instance_bounded_by_marked_edges :
    ∀ (r : Reader) (limits : List String) (ctx : WCtx) (fuel : Nat) (clsId : Nat)
      (l : List Interface),
      classInterfaces r limits ctx fuel clsId = .ok l →
      l.countP (fun e => e.category = InterfaceCategory.DefaultInstance)
        ≤ (r.data clsId).interfaces.countP (fun c => c.hasDefaultAttribute) := by
  intro r limits ctx fuel clsId l hok
  simp only [classInterfaces] at hok
  rw [classAttributesFold_countDI r limits ctx _ _ l hok]
  refine le_trans (basesFold_countDI r limits ctx fuel _ _) ?_
  have := addInterfaces_countDI r limits ctx fuel [] [] [] (r.data clsId).interfaces true
  simpa using this

/-- Counterexample for C2.  A class whose two direct interface edges both
carry the default marker yields a composed list with two `DefaultInstance`
entries — the resolver does not enforce "at most one" when the metadata
marks several directly implemented edges as default. -/
theorem c2_counterexample :
    ((classInterfaces c2Reader fixtureLimits fixtureCtx 10 0).toOption.getD []).countP
        (fun e => e.category = InterfaceCategory.DefaultInstance) = 2
    ∧ ¬ ((classInterfaces c2Reader fixtureLimits fixtureCtx 10 0).toOption.getD []).countP
          (fun e => e.category = InterfaceCategory.DefaultInstance) ≤ 1 :=
  ⟨by decide, by decide⟩

/-- Witness for C2 (amended) at the two-defaults fixture class: the bound
by marked direct edges holds (two entries, two marked edges). -/
theorem c2_default_instance_bounded_by_marked_edges_witness :
    ((classInterfaces c2Reader fixtureLimits fixtureCtx 10 0).toOption.getD []).countP
        (fun e => e.category = InterfaceCategory.DefaultInstance)
      ≤ (c2Reader.data 0).interfaces.countP (fun c => c.hasDefaultAttribute) :=
  c2_default_instance_bounded_by_marked_edges c2Reader fixtureLimits fixtureCtx 10 0 _ rfl

/-- C5 (amended).  The deduplicating interface walk (`add_interfaces`)
never introduces two entries with the same definition identity: starting
from a result list whose definition identities are pairwise distinct, the
walk preserves that property, so a required-interface diamond collapses
to a single entry.  (Factory entries appended afterwards from class
attributes are not deduplicated against the walk, see the
counterexample.) -/
theorem c5_walk_entries_unique :
    ∀ (r : Reader) (limits : List String) (ctx : WCtx) (fuel : Nat)
      (gstack : List (List String)) (result : List Interface)
      (pg : List (List String)) (children : List InterfaceImplRec) (fd : Bool),
      ((result.map (fun e => e.definition)).Nodup) →
      (((addInterfaces r limits ctx fuel gstack result pg children fd).map
          (fun e => e.definition)).Nodup) := by
  intro r limits ctx fuel
  induction fuel with
  | zero =>
    intro gstack result pg children fd hnd
    simpa [addInterfaces] using hnd
  | succ fuel ih =>
    intro gstack result pg children fd hnd
    cases children with
    | nil => simpa [addInterfaces] using hnd
    | cons child rest =>
      obtain ⟨hdefb, hover, target⟩ := child
      cases target with
      | typeDef id =>
        cases hlook : lookupInsert result id with
        | none => simp only [addInterfaces, hlook]; exact ih _ _ _ _ _ hnd
        | some index =>
          simp only [addInterfaces, hlook]
          refine ih _ _ _ _ _ (ih _ _ _ _ _ ?_)
          refine (List.Perm.nodup_iff ((insertAt_perm result index _).map
            (fun e => e.definition))).mpr ?_
          simp only [List.map_cons]
          refine List.nodup_cons.mpr ⟨?_, hnd⟩
          intro hmem
          obtain ⟨e, hemem, hedef⟩ := List.mem_map.mp hmem
          exact lookupInsert_some_not_mem result id index hlook e hemem (hedef.trans rfl)
      | typeRef id =>
        cases hlook : lookupInsert result id with
        | none => simp only [addInterfaces, hlook]; exact ih _ _ _ _ _ hnd
        | some index =>
          simp only [addInterfaces, hlook]
          refine ih _ _ _ _ _ (ih _ _ _ _ _ ?_)
          refine (List.Perm.nodup_iff ((insertAt_perm result index _).map
            (fun e => e.definition))).mpr ?_
          simp only [List.map_cons]
          refine List.nodup_cons.mpr ⟨?_, hnd⟩
          intro hmem
          obtain ⟨e, hemem, hedef⟩ := List.mem_map.mp hmem
          exact lookupInsert_some_not_mem result id index hlook e hemem (hedef.trans rfl)
      | typeSpec id sargs =>
        cases hlook : lookupInsert result id with
        | none => simp only [addInterfaces, hlook]; exact ih _ _ _ _ _ hnd
        | some index =>
          simp only [addInterfaces, hlook]
          refine ih _ _ _ _ _ (ih _ _ _ _ _ ?_)
          refine (List.Perm.nodup_iff ((insertAt_perm result index _).map
            (fun e => e.definition))).mpr ?_
          simp only [List.map_cons]
          refine List.nodup_cons.mpr ⟨?_, hnd⟩
          intro hmem
          obtain ⟨e, hemem, hedef⟩ := List.mem_map.mp hmem
          exact lookupInsert_some_not_mem result id index hlook e hemem (hedef.trans rfl)

/-- Counterexample for C5.  On the diamond fixture class, the walk itself
collapses `D` to one entry, but the two `ActivatableAttribute` markers
naming the same factory `F` append two composed entries with the same
definition identity, so a composed list can contain duplicates. -/
theorem c5_counterexample :
    ((classInterfaces c5Reader fixtureLimits fixtureCtx 10 0).toOption.getD []).map
        (fun e => e.definition) = [some 1, some 2, some 3, some 4, some 4]
    ∧ ((classInterfaces c5Reader fixtureLimits fixtureCtx 10 0).toOption.getD []).countP
        (fun e => e.definition = some 4) = 2
    ∧ ¬ (((classInterfaces c5Reader fixtureLimits fixtureCtx 10 0).toOption.getD []).map
          (fun e => e.definition)).Nodup :=
  ⟨by decide, by decide, by decide⟩

/-- Witness for C5 (amended): on the diamond fixture (B and C both
requiring D), the walk yields pairwise-distinct definitions and exactly
one entry for D. -/
theorem c5_walk_entries_unique_witness :
    (((addInterfaces c5Reader fixtureLimits fixtureCtx 10 [] [] []
          (Reader.interfacesOf c5Reader 0) true).map (fun e => e.definition)).Nodup)
    ∧ ((addInterfaces c5Reader fixtureLimits fixtureCtx 10 [] [] []
          (Reader.interfacesOf c5Reader 0) true).countP
        (fun e => e.definition = some 3)) = 1 :=
  ⟨c5_walk_entries_unique c5Reader fixtureLimits fixtureCtx 10 [] [] []
      (Reader.interfacesOf c5Reader 0) true (by simp),
   by decide⟩

/-- C6.  For an interface root, the composed list has at position zero a
synthetic entry for the interface itself tagged with the primary
(`Abi`) role. -/
theorem c6_interface_primary_first :
    ∀ (r : Reader) (limits : List String) (ctx : WCtx) (fuel : Nat)
      (gstack : List (List String)) (iid : Nat),
      ((interfaceInterfaces r limits ctx fuel gstack iid).head?).map
          (fun e => (e.definition, e.category))
        = some (some iid, InterfaceCategory.Abi)
      ∧ (interfaceInterfaces r limits ctx fuel gstack iid).get? 0
        = some { definition := some iid, generics := [], overridable := false,
                 exclusive := false, limited := false, category := .Abi,
                 identifier := writeInterfaceIdent r ctx gstack iid [] } := by
  intro r limits ctx fuel gstack iid
  exact ⟨rfl, rfl⟩
